import Mathlib

/-!
Verification of the 3X-UI panel client (`XUI/XUiApiServices.py`).

The Python source is shallowly embedded: JSON-string `settings` documents are
modelled at their decoded level, IPv4 addresses are natural numbers below
`2 ^ 32`, dicts with a fixed key set become structures, and the raw inbound
document used for the update payload becomes an association list from keys to
a small value type.  Remote calls (`requests`) are modelled by passing the
data they would return (the inbound list, the panel response) as arguments;
a Python `raise` becomes an `Except`/`Option` error value.
-/

namespace VPNTG

/-! ## Character-level string utilities

The `str.split` of Python and the `ipaddress` textual formats are modelled over
`List Char`, which the kernel evaluates directly. -/

/-- Split a character list at every occurrence of the separator `c`,
mirroring the Python `str.split(sep)` (adjacent separators yield empty parts). -/
def splitChar (c : Char) : List Char → List (List Char)
  | [] => [[]]
  | a :: rest =>
    if a = c then [] :: splitChar c rest
    else
      match splitChar c rest with
      | [] => [[a]]
      | g :: gs => (a :: g) :: gs

/-- `ip.split("/")[0]`: everything before the first slash. -/
def addrPart (s : String) : String := String.mk (s.data.takeWhile (fun c => c ≠ '/'))

/-- Decimal digits of `n` (no leading zeros), fuel-based so the kernel can
evaluate it. -/
def natDigitsAux : Nat → Nat → List Char
  | 0, _ => []
  | fuel + 1, n =>
    if n < 10 then [Char.ofNat (48 + n)]
    else natDigitsAux fuel (n / 10) ++ [Char.ofNat (48 + n % 10)]

/-- Decimal representation of a natural number as characters. -/
def natDigits (n : Nat) : List Char := natDigitsAux (n + 1) n

/-- One octet of a dotted-quad IPv4 literal, with the CPython `ipaddress`
rules: nonempty, all ASCII digits, at most three characters, no leading
zero, value at most 255. -/
def parseOctet (l : List Char) : Option Nat :=
  if l.isEmpty then none
  else if !(l.all Char.isDigit) then none
  else if 3 < l.length then none
  else if 1 < l.length && l.headD '0' == '0' then none
  else
    let v := l.foldl (fun acc c => acc * 10 + (c.toNat - 48)) 0
    if v ≤ 255 then some v else none

/-- `ipaddress.IPv4Address(s)` as a number below `2 ^ 32`; `none` models the
`ValueError` raised on malformed input. -/
def parseIPv4 (s : String) : Option Nat :=
  match (splitChar '.' s.data).map parseOctet with
  | [some a, some b, some c, some d] => some (a * 16777216 + b * 65536 + c * 256 + d)
  | _ => none

/-- Dotted-quad characters of the address `n` (i.e. `IPv4Address(n).compressed`). -/
def ipChars (n : Nat) : List Char :=
  natDigits (n / 16777216 % 256) ++ '.' ::
  (natDigits (n / 65536 % 256) ++ '.' ::
  (natDigits (n / 256 % 256) ++ '.' :: natDigits (n % 256)))

/-- Dotted-quad rendering of the address `n`. -/
def ipToString (n : Nat) : String := String.mk (ipChars n)

/-! ## The data model -/

/-- A WireGuard peer record as built by `add_wireguard_peer` and stored in a
WireGuard inbound in its decoded `settings.peers` list. -/
structure WGPeer where
  privateKey : String := ""
  publicKey : String := ""
  allowedIPs : List String := []
  keepAlive : Option Nat := none
  name : String := ""
  deriving DecidableEq, Repr

/-- A client record as found in `clientStats` entries and in a stream
a stream inbound in its decoded `settings.clients` list; `email`/`name` are `Option`
because Python reads them with `dict.get`. -/
structure Entry where
  id : String := ""
  email : Option String := none
  name : Option String := none
  deriving DecidableEq, Repr

/-- A decoded inbound `settings` document (`clients` for stream protocols,
`peers` and optional `mtu` for WireGuard). -/
structure SettingsDoc where
  clients : List Entry := []
  peers : List WGPeer := []
  mtu : Option Nat := none
  deriving DecidableEq, Repr

/-- An IPv4 network given by its base address and prefix length, as
`ipaddress.IPv4Network` would hold it. -/
structure IPv4Net where
  base : Nat
  prefixLen : Nat
  deriving DecidableEq, Repr

/-- `IPv4Network.hosts()` from CPython: all addresses strictly between the
network and broadcast addresses, except that a `/31` yields both of its
addresses and a `/32` yields its single address. -/
def hostsOf (net : IPv4Net) : List Nat :=
  if net.prefixLen = 32 then [net.base]
  else if net.prefixLen = 31 then [net.base, net.base + 1]
  else List.range' (net.base + 1) (2 ^ (32 - net.prefixLen) - 2)

/-- The host addresses of a network in the words of the specification:
network and broadcast addresses excluded, for every prefix length.  This is
the specification-side counterpart of `hostsOf` and differs from it exactly
on `/31` and `/32` networks. -/
def specHostAddresses (net : IPv4Net) : List Nat :=
  List.range' (net.base + 1) (2 ^ (32 - net.prefixLen) - 2)

/-- The default allocation pool `10.0.0.0/24` of `pick_new_ip` and
`add_wireguard_peer`. -/
def defaultPool : IPv4Net := { base := 167772160, prefixLen := 24 }

/-- The address part of every `allowedIPs` string of every peer, in order —
the strings whose parses Python collects into the `used_ips` set. -/
def peerAddrStrings (peers : List WGPeer) : List String :=
  peers.foldr (fun p acc => p.allowedIPs.map addrPart ++ acc) []

/-- Parse a list of address strings; `none` models the `ValueError` Python
would raise while building the `used_ips` set. -/
def parseAll : List String → Option (List Nat)
  | [] => some []
  | s :: rest =>
    match parseIPv4 s, parseAll rest with
    | some v, some vs => some (v :: vs)
    | _, _ => none

/-- Failure modes of `pick_new_ip`: a malformed peer address
(`ValueError` from `IPv4Address`) or `Exception("IP pool exhausted")`. -/
inductive PickErr where
  | parseError
  | exhausted
  deriving DecidableEq, Repr

/-- `XUIService.pick_new_ip`, over a decoded peers list: collect the used
addresses, walk the hosts of the network in ascending order and return the first
free one as a `/32`, or fail when every host is taken. -/
def pick_new_ip (peers : List WGPeer) (net : IPv4Net) : Except PickErr String :=
  match parseAll (peerAddrStrings peers) with
  | none => .error .parseError
  | some used =>
    match (hostsOf net).find? (fun h => !(used.contains h)) with
    | some h => .ok (ipToString h ++ "/32")
    | none => .error .exhausted

/-! ## Round-trip facts about the textual IPv4 format -/

theorem splitChar_ne_nil (c : Char) (l : List Char) : splitChar c l ≠ [] := by
  induction l with
  | nil => simp [splitChar]
  | cons a t ih =>
    by_cases h : a = c
    · simp [splitChar, h]
    · simp only [splitChar, if_neg h]
      cases hs : splitChar c t with
      | nil => simp
      | cons g gs => simp

theorem splitChar_no_sep (c : Char) (l : List Char) (h : ∀ x ∈ l, x ≠ c) :
    splitChar c l = [l] := by
  induction l with
  | nil => rfl
  | cons a t ih =>
    have ht := ih (fun x hx => h x (List.mem_cons_of_mem a hx))
    simp [splitChar, h a (List.mem_cons_self a t), ht]

theorem splitChar_append (c : Char) (xs ys : List Char) (h : ∀ x ∈ xs, x ≠ c)
    (g : List Char) (gs : List (List Char)) (hy : splitChar c ys = g :: gs) :
    splitChar c (xs ++ ys) = (xs ++ g) :: gs := by
  induction xs with
  | nil => simpa using hy
  | cons a t ih =>
    have ht := ih (fun x hx => h x (List.mem_cons_of_mem a hx))
    simp [splitChar, h a (List.mem_cons_self a t), ht]

theorem splitChar_cons_sep (c : Char) (l : List Char) :
    splitChar c (c :: l) = [] :: splitChar c l := by
  simp [splitChar]

set_option maxRecDepth 4096 in
/-- For every octet value, parsing the printed decimal digits gives the value
back, and the digits contain neither a dot nor a slash. -/
theorem octet_digit_facts : ∀ k, k < 256 →
    parseOctet (natDigits k) = some k ∧ '.' ∉ natDigits k ∧ '/' ∉ natDigits k := by decide

theorem parseIPv4_ipToString (n : Nat) (h : n < 4294967296) :
    parseIPv4 (ipToString n) = some n := by
  have h1 : n / 16777216 % 256 < 256 := Nat.mod_lt _ (by norm_num)
  have h2 : n / 65536 % 256 < 256 := Nat.mod_lt _ (by norm_num)
  have h3 : n / 256 % 256 < 256 := Nat.mod_lt _ (by norm_num)
  have h4 : n % 256 < 256 := Nat.mod_lt _ (by norm_num)
  obtain ⟨p1, d1, _⟩ := octet_digit_facts _ h1
  obtain ⟨p2, d2, _⟩ := octet_digit_facts _ h2
  obtain ⟨p3, d3, _⟩ := octet_digit_facts _ h3
  obtain ⟨p4, d4, _⟩ := octet_digit_facts _ h4
  have nd1 : ∀ x ∈ natDigits (n / 16777216 % 256), x ≠ '.' := fun x hx he => d1 (he ▸ hx)
  have nd2 : ∀ x ∈ natDigits (n / 65536 % 256), x ≠ '.' := fun x hx he => d2 (he ▸ hx)
  have nd3 : ∀ x ∈ natDigits (n / 256 % 256), x ≠ '.' := fun x hx he => d3 (he ▸ hx)
  have nd4 : ∀ x ∈ natDigits (n % 256), x ≠ '.' := fun x hx he => d4 (he ▸ hx)
  have s4 := splitChar_no_sep '.' (natDigits (n % 256)) nd4
  have s3 := splitChar_append '.' (natDigits (n / 256 % 256)) _ nd3 _ _
    ((splitChar_cons_sep '.' _).trans (by rw [s4]))
  have s2 := splitChar_append '.' (natDigits (n / 65536 % 256)) _ nd2 _ _
    ((splitChar_cons_sep '.' _).trans (by rw [s3]))
  have s1 := splitChar_append '.' (natDigits (n / 16777216 % 256)) _ nd1 _ _
    ((splitChar_cons_sep '.' _).trans (by rw [s2]))
  have hdata : (ipToString n).data = ipChars n := rfl
  unfold parseIPv4
  rw [hdata]
  unfold ipChars
  rw [s1]
  simp only [List.append_nil, List.map_cons, List.map_nil, p1, p2, p3, p4]
  congr 1
  omega

theorem takeWhile_append_stop (p : Char → Bool) (xs ys : List Char) (y : Char)
    (hxs : ∀ x ∈ xs, p x = true) (hy : p y = false) :
    (xs ++ y :: ys).takeWhile p = xs := by
  induction xs with
  | nil => simp [List.takeWhile_cons, hy]
  | cons a t ih =>
    have ht := ih (fun x hx => hxs x (List.mem_cons_of_mem a hx))
    simp [List.takeWhile_cons, hxs a (List.mem_cons_self a t), ht]

theorem no_slash_ipChars (n : Nat) : ∀ x ∈ ipChars n, x ≠ '/' := by
  have h1 : n / 16777216 % 256 < 256 := Nat.mod_lt _ (by norm_num)
  have h2 : n / 65536 % 256 < 256 := Nat.mod_lt _ (by norm_num)
  have h3 : n / 256 % 256 < 256 := Nat.mod_lt _ (by norm_num)
  have h4 : n % 256 < 256 := Nat.mod_lt _ (by norm_num)
  obtain ⟨_, _, q1⟩ := octet_digit_facts _ h1
  obtain ⟨_, _, q2⟩ := octet_digit_facts _ h2
  obtain ⟨_, _, q3⟩ := octet_digit_facts _ h3
  obtain ⟨_, _, q4⟩ := octet_digit_facts _ h4
  intro x hx
  simp only [ipChars, List.mem_append, List.mem_cons] at hx
  rcases hx with (hx | rfl | hx | rfl | hx | rfl | hx) <;>
    first
    | exact fun he => q1 (he ▸ hx)
    | exact fun he => q2 (he ▸ hx)
    | exact fun he => q3 (he ▸ hx)
    | exact fun he => q4 (he ▸ hx)
    | decide

theorem addrPart_ip32 (n : Nat) : addrPart (ipToString n ++ "/32") = ipToString n := by
  have hdata : (ipToString n ++ "/32").data = ipChars n ++ '/' :: ['3', '2'] := rfl
  unfold addrPart
  rw [hdata, takeWhile_append_stop _ _ _ _ (fun x hx => by
    simpa using no_slash_ipChars n x hx) (by decide)]
  rfl

/-! ## C1: address allocation -/

theorem find?_sorted_least {p : Nat → Bool} {l : List Nat} (hs : l.Pairwise (· < ·)) {x : Nat}
    (hf : l.find? p = some x) : ∀ y ∈ l, p y = true → x ≤ y := by
  induction l with
  | nil => simp at hf
  | cons a t ih =>
    rcases List.pairwise_cons.1 hs with ⟨ha, ht⟩
    by_cases hp : p a
    · rw [List.find?_cons_of_pos _ hp] at hf
      cases hf
      intro y hy _
      rcases List.mem_cons.1 hy with rfl | hy
      · exact Nat.le_refl _
      · exact Nat.le_of_lt (ha y hy)
    · rw [List.find?_cons_of_neg _ hp] at hf
      intro y hy hpy
      rcases List.mem_cons.1 hy with rfl | hy
      · exact absurd hpy (by simpa using hp)
      · exact ih ht hf y hy hpy

theorem hostsOf_eq_spec (net : IPv4Net) (hp : net.prefixLen ≤ 30) :
    hostsOf net = specHostAddresses net := by
  unfold hostsOf specHostAddresses
  rw [if_neg (by omega), if_neg (by omega)]

theorem specHostAddresses_sorted (net : IPv4Net) :
    (specHostAddresses net).Pairwise (· < ·) :=
  List.pairwise_lt_range' _ _

/-- C1: over a decoded peers list yielding a used-address set, and a valid
IPv4 CIDR of prefix length at most 30, `pick_new_ip` returns the numerically
smallest free host address (network/broadcast excluded) suffixed with `/32`,
and fails with the pool-exhausted error exactly when every host address is
used; the default `10.0.0.0/24` pool has 254 host addresses. -/
theorem pick_new_ip_spec (peers : List WGPeer) (net : IPv4Net) (used : List Nat)
    (_hvalid : net.base < 4294967296 ∧ net.prefixLen ≤ 32 ∧
      net.base % 2 ^ (32 - net.prefixLen) = 0)
    (hp : net.prefixLen ≤ 30)
    (hu : parseAll (peerAddrStrings peers) = some used) :
    (pick_new_ip peers net = .error .exhausted ↔ ∀ h ∈ specHostAddresses net, h ∈ used) ∧
    (∀ h, h ∈ specHostAddresses net → h ∉ used →
      (∀ g ∈ specHostAddresses net, g ∉ used → h ≤ g) →
      pick_new_ip peers net = .ok (ipToString h ++ "/32")) ∧
    (specHostAddresses defaultPool).length = 254 := by
  have hh := hostsOf_eq_spec net hp
  have key : pick_new_ip peers net =
      match (specHostAddresses net).find? (fun h => !(used.contains h)) with
      | some h => .ok (ipToString h ++ "/32")
      | none => .error .exhausted := by
    unfold pick_new_ip
    rw [hu, hh]
  refine ⟨?_, ?_, ?_⟩
  · rw [key]
    cases hf : (specHostAddresses net).find? (fun h => !(used.contains h)) with
    | none =>
      constructor
      · intro _ h hm
        have := List.find?_eq_none.1 hf h hm
        simpa using this
      · intro _; rfl
    | some x =>
      constructor
      · intro he; exact absurd he (by simp)
      · intro hall
        have hx := List.find?_some hf
        have hxu : x ∈ used := hall x (List.mem_of_find?_eq_some hf)
        simp at hx
        exact absurd hxu hx
  · intro h hmem hnot hmin
    rw [key]
    cases hf : (specHostAddresses net).find? (fun g => !(used.contains g)) with
    | none =>
      have := List.find?_eq_none.1 hf h hmem
      simp [hnot] at this
    | some x =>
      have hpx := List.find?_some hf
      have hxmem := List.mem_of_find?_eq_some hf
      have hxnot : x ∉ used := by simpa using hpx
      have hle1 : h ≤ x := hmin x hxmem hxnot
      have hle2 : x ≤ h :=
        find?_sorted_least (specHostAddresses_sorted net) hf h hmem (by simpa using hnot)
      have hxh : x = h := Nat.le_antisymm hle2 hle1
      rw [hxh]
  · unfold specHostAddresses defaultPool
    simp [List.length_range']

/-- Concrete instance of C1: in the pool `10.0.0.0/30` with `10.0.0.1`
already taken by a peer, the smallest free host `10.0.0.2` is returned. -/
theorem pick_new_ip_spec_witness :
    pick_new_ip [{ allowedIPs := ["10.0.0.1/32"] }] { base := 167772160, prefixLen := 30 } =
      .ok "10.0.0.2/32" := by
  have h := (pick_new_ip_spec [{ allowedIPs := ["10.0.0.1/32"] }]
    { base := 167772160, prefixLen := 30 } [167772161]
    (by refine ⟨by norm_num, by norm_num, by norm_num⟩)
    (by norm_num) (by decide)).2.1 167772162 (by decide) (by decide) (by decide)
  have hs : ipToString 167772162 ++ "/32" = "10.0.0.2/32" := by decide
  exact hs ▸ h

/-- Counterexample to C1 as stated: for the valid CIDR `10.0.0.0/31` and no
peers, every host address in the sense of the claim (network and broadcast
excluded — there are none) is vacuously used, yet the code does not fail
with the pool-exhausted error: following the Python `/31` semantics it returns
`10.0.0.0/32`. -/
theorem pick_new_ip_slash31_counterexample :
    (∀ h ∈ specHostAddresses { base := 167772160, prefixLen := 31 }, h ∈ ([] : List Nat)) ∧
    pick_new_ip [] { base := 167772160, prefixLen := 31 } = .ok "10.0.0.0/32" := by
  constructor
  · intro h hmem
    simp [specHostAddresses] at hmem
  · rfl

/-! ## C2 and C5: adding a WireGuard peer

`add_wireguard_peer` works on the raw inbound document, a JSON object
modelled as an association list from keys to values; the nested
JSON-serialized `settings` string is carried at its decoded level. -/

/-- One value of the raw inbound JSON object. -/
inductive FieldVal where
  | str (s : String)
  | num (n : Int)
  | boolean (b : Bool)
  | settingsDoc (d : SettingsDoc)
  | statsList (l : List Entry)
  deriving DecidableEq, Repr

/-- `orig[k]` on the raw object. -/
def assocLookup (l : List (String × FieldVal)) (k : String) : Option FieldVal :=
  match l with
  | [] => none
  | kv :: rest => if kv.1 = k then some kv.2 else assocLookup rest k

/-- `payload[k] = v` on a dict: replace the entry if the key is present
(Python keeps its position), otherwise append it. -/
def assocSet (l : List (String × FieldVal)) (k : String) (v : FieldVal) :
    List (String × FieldVal) :=
  if l.any (fun kv => kv.1 == k) then l.map (fun kv => if kv.1 == k then (k, v) else kv)
  else l ++ [(k, v)]

/-- The dict-comprehension filter `k not in ("id", "clientStats")`. -/
def keptField (kv : String × FieldVal) : Bool :=
  !(kv.1 == "id") && !(kv.1 == "clientStats")

/-- The peer record built by step 3 of `add_wireguard_peer`. -/
def newPeerOf (priv pub ip : String) (keepalive : Nat) (name : String) : WGPeer :=
  { privateKey := priv, publicKey := pub, allowedIPs := [ip],
    keepAlive := some keepalive, name := name }

/-- Failure modes of `add_wireguard_peer` up to the update request. -/
inductive AddPeerErr where
  | pickFailed (e : PickErr)
  | missingSettings
  deriving DecidableEq, Repr

/-- Steps 3–4 of `add_wireguard_peer` once the decoded settings `s` are in
hand: allocate an address, build the peer record, append it, and build the
update payload — all fields of `orig` except `id` and `clientStats`, with
`settings` replaced by the re-serialized appended document. -/
def add_wireguard_peer_body (orig : List (String × FieldVal)) (s : SettingsDoc)
    (priv pub name : String) (keepalive : Nat) :
    Except AddPeerErr (List (String × FieldVal) × WGPeer) :=
  match pick_new_ip s.peers defaultPool with
  | .error e => .error (.pickFailed e)
  | .ok ip =>
    let np := newPeerOf priv pub ip keepalive name
    .ok (assocSet (orig.filter keptField) "settings"
          (.settingsDoc { s with peers := s.peers ++ [np] }), np)

/-- Steps 2–4 of `XUIService.add_wireguard_peer` on a fetched inbound
document `orig`: read and decode `orig["settings"]`, then proceed with
`add_wireguard_peer_body`.  Returns the update payload together with the
new peer (the generated keys are passed in, since `_generate_wg_keys` is
random). -/
def add_wireguard_peer_model (orig : List (String × FieldVal))
    (priv pub name : String) (keepalive : Nat) :
    Except AddPeerErr (List (String × FieldVal) × WGPeer) :=
  match assocLookup orig "settings" with
  | some (.settingsDoc s) => add_wireguard_peer_body orig s priv pub name keepalive
  | _ => .error .missingSettings

/-- The parsed address parts of the `allowedIPs` entries of a peer. -/
def parsedAddrs (p : WGPeer) : List (Option Nat) :=
  p.allowedIPs.map (fun s => parseIPv4 (addrPart s))

/-- Two peers share no `allowedIPs` address. -/
def addrDisjoint (p q : WGPeer) : Prop := ∀ a ∈ parsedAddrs p, a ∉ parsedAddrs q

/-! ### Supporting lemmas -/

theorem pick_new_ip_eq (peers : List WGPeer) (net : IPv4Net) (used : List Nat)
    (hu : parseAll (peerAddrStrings peers) = some used) :
    pick_new_ip peers net =
      match (hostsOf net).find? (fun h => !(used.contains h)) with
      | some h => .ok (ipToString h ++ "/32")
      | none => .error .exhausted := by
  unfold pick_new_ip
  rw [hu]

theorem peerAddrStrings_cons (q : WGPeer) (t : List WGPeer) :
    peerAddrStrings (q :: t) = q.allowedIPs.map addrPart ++ peerAddrStrings t := rfl

theorem mem_peerAddrStrings {peers : List WGPeer} {p : WGPeer} {s : String}
    (hp : p ∈ peers) (hs : s ∈ p.allowedIPs) : addrPart s ∈ peerAddrStrings peers := by
  induction peers with
  | nil => cases hp
  | cons q t ih =>
    rw [peerAddrStrings_cons]
    rcases List.mem_cons.1 hp with rfl | hp
    · exact List.mem_append_left _ (List.mem_map_of_mem addrPart hs)
    · exact List.mem_append_right _ (ih hp)

theorem parseAll_mem {l : List String} {r : List Nat} (h : parseAll l = some r) :
    ∀ s ∈ l, ∃ v, parseIPv4 s = some v ∧ v ∈ r := by
  induction l generalizing r with
  | nil => simp
  | cons a t ih =>
    intro s hs
    unfold parseAll at h
    cases hpa : parseIPv4 a with
    | none => rw [hpa] at h; exact absurd h (by simp)
    | some v =>
      rw [hpa] at h
      cases hpt : parseAll t with
      | none => rw [hpt] at h; exact absurd h (by simp)
      | some vs =>
        rw [hpt] at h
        have hr : v :: vs = r := by simpa using h
        rcases List.mem_cons.1 hs with rfl | hs
        · exact ⟨v, hpa, by rw [← hr]; exact List.mem_cons_self _ _⟩
        · obtain ⟨w, hw1, hw2⟩ := ih hpt s hs
          exact ⟨w, hw1, by rw [← hr]; exact List.mem_cons_of_mem _ hw2⟩

theorem mem_hostsOf_defaultPool_lt {h : Nat} (hm : h ∈ hostsOf defaultPool) :
    h < 4294967296 := by
  unfold hostsOf defaultPool at hm
  norm_num at hm
  omega

theorem assocLookup_none_of_no_key {l : List (String × FieldVal)} {k : String}
    (h : ∀ kv ∈ l, kv.1 ≠ k) : assocLookup l k = none := by
  induction l with
  | nil => rfl
  | cons kv t ih =>
    unfold assocLookup
    rw [if_neg (h kv (List.mem_cons_self kv t))]
    exact ih (fun x hx => h x (List.mem_cons_of_mem kv hx))

theorem assocLookup_cons (kv : String × FieldVal) (t : List (String × FieldVal)) (k : String) :
    assocLookup (kv :: t) k = if kv.1 = k then some kv.2 else assocLookup t k := rfl

theorem assocLookup_filter (l : List (String × FieldVal)) (k : String)
    (h1 : k ≠ "id") (h2 : k ≠ "clientStats") :
    assocLookup (l.filter keptField) k = assocLookup l k := by
  induction l with
  | nil => rfl
  | cons kv t ih =>
    by_cases hk : kv.1 = k
    · have hkept : keptField kv = true := by
        simp only [keptField, Bool.and_eq_true, Bool.not_eq_true']
        exact ⟨by simp [hk, h1], by simp [hk, h2]⟩
      rw [List.filter_cons_of_pos hkept, assocLookup_cons, assocLookup_cons,
        if_pos hk, if_pos hk]
    · by_cases hkept : keptField kv = true
      · rw [List.filter_cons_of_pos hkept, assocLookup_cons, assocLookup_cons,
          if_neg hk, if_neg hk, ih]
      · rw [List.filter_cons_of_neg (by simpa using hkept), ih, assocLookup_cons, if_neg hk]

theorem keptField_keys {kv : String × FieldVal} (h : keptField kv = true) :
    kv.1 ≠ "id" ∧ kv.1 ≠ "clientStats" := by
  simp only [keptField, Bool.and_eq_true, Bool.not_eq_true'] at h
  exact ⟨by simpa using h.1, by simpa using h.2⟩

theorem assocLookup_filter_id (l : List (String × FieldVal)) :
    assocLookup (l.filter keptField) "id" = none :=
  assocLookup_none_of_no_key (fun _kv hkv =>
    (keptField_keys (List.of_mem_filter hkv)).1)

theorem assocLookup_filter_clientStats (l : List (String × FieldVal)) :
    assocLookup (l.filter keptField) "clientStats" = none :=
  assocLookup_none_of_no_key (fun _kv hkv =>
    (keptField_keys (List.of_mem_filter hkv)).2)

theorem assocLookup_any {l : List (String × FieldVal)} {k : String} {v : FieldVal}
    (h : assocLookup l k = some v) : l.any (fun kv => kv.1 == k) = true := by
  induction l with
  | nil => exact absurd h (by simp [assocLookup])
  | cons kv t ih =>
    rw [assocLookup_cons] at h
    by_cases hk : kv.1 = k
    · simp [List.any_cons, hk]
    · rw [if_neg hk] at h
      simp [List.any_cons, ih h]

theorem assocLookup_replace_self (l : List (String × FieldVal)) (k : String) (v : FieldVal)
    (ha : l.any (fun kv => kv.1 == k) = true) :
    assocLookup (l.map (fun kv => if kv.1 == k then (k, v) else kv)) k = some v := by
  induction l with
  | nil => simp at ha
  | cons kv t ih =>
    rw [List.map_cons]
    by_cases hk : kv.1 = k
    · have hfkv : (if kv.1 == k then (k, v) else kv) = (k, v) := by simp [hk]
      rw [hfkv, assocLookup_cons]
      simp
    · have hfkv : (if kv.1 == k then (k, v) else kv) = kv := by simp [hk]
      rw [hfkv, assocLookup_cons, if_neg hk]
      have ha2 : t.any (fun kv => kv.1 == k) = true := by
        rcases List.any_eq_true.1 ha with ⟨x, hx, hxk⟩
        rcases List.mem_cons.1 hx with rfl | hx
        · exact absurd (by simpa using hxk) hk
        · exact List.any_eq_true.2 ⟨x, hx, hxk⟩
      exact ih ha2

theorem assocLookup_replace_other (l : List (String × FieldVal)) (k : String) (v : FieldVal)
    (kp : String) (hne : kp ≠ k) :
    assocLookup (l.map (fun kv => if kv.1 == k then (k, v) else kv)) kp =
      assocLookup l kp := by
  induction l with
  | nil => rfl
  | cons kv t ih =>
    rw [List.map_cons]
    by_cases hk : kv.1 = k
    · have hfkv : (if kv.1 == k then (k, v) else kv) = (k, v) := by simp [hk]
      have hc1 : ¬((k, v).1 = kp) := fun he => hne (by rw [← he])
      have hc2 : ¬(kv.1 = kp) := fun he => hne (by rw [← he]; exact hk)
      rw [hfkv, assocLookup_cons, assocLookup_cons, if_neg hc1, if_neg hc2, ih]
    · have hfkv : (if kv.1 == k then (k, v) else kv) = kv := by simp [hk]
      rw [hfkv, assocLookup_cons, assocLookup_cons]
      by_cases hkp : kv.1 = kp
      · rw [if_pos hkp, if_pos hkp]
      · rw [if_neg hkp, if_neg hkp, ih]

theorem assocLookup_append_single (l : List (String × FieldVal)) (k : String) (v : FieldVal)
    (kp : String) (hne : kp ≠ k) :
    assocLookup (l ++ [(k, v)]) kp = assocLookup l kp := by
  induction l with
  | nil =>
    rw [List.nil_append, assocLookup_cons, if_neg (fun he => hne he.symm)]
  | cons kv t ih =>
    rw [List.cons_append, assocLookup_cons, assocLookup_cons]
    by_cases hk : kv.1 = kp
    · rw [if_pos hk, if_pos hk]
    · rw [if_neg hk, if_neg hk, ih]

theorem assocLookup_append_single_self (l : List (String × FieldVal)) (k : String)
    (v : FieldVal) (hnone : assocLookup l k = none) :
    assocLookup (l ++ [(k, v)]) k = some v := by
  induction l with
  | nil =>
    rw [List.nil_append, assocLookup_cons, if_pos rfl]
  | cons kv t ih =>
    rw [assocLookup_cons] at hnone
    rw [List.cons_append, assocLookup_cons]
    by_cases hk : kv.1 = k
    · rw [if_pos hk] at hnone; exact absurd hnone (by simp)
    · rw [if_neg hk] at hnone ⊢
      exact ih hnone

theorem assocLookup_assocSet_self (l : List (String × FieldVal)) (k : String) (v : FieldVal) :
    assocLookup (assocSet l k v) k = some v := by
  unfold assocSet
  by_cases ha : l.any (fun kv => kv.1 == k) = true
  · rw [if_pos ha]
    exact assocLookup_replace_self l k v ha
  · rw [if_neg ha]
    refine assocLookup_append_single_self l k v ?_
    refine assocLookup_none_of_no_key (fun kv hkv he => ha ?_)
    exact List.any_eq_true.2 ⟨kv, hkv, by simp [he]⟩

theorem assocLookup_assocSet_other (l : List (String × FieldVal)) (k : String) (v : FieldVal)
    (kp : String) (hne : kp ≠ k) :
    assocLookup (assocSet l k v) kp = assocLookup l kp := by
  unfold assocSet
  by_cases ha : l.any (fun kv => kv.1 == k) = true
  · rw [if_pos ha]
    exact assocLookup_replace_other l k v kp hne
  · rw [if_neg ha]
    exact assocLookup_append_single l k v kp hne

theorem assocSet_keys_of_present (l : List (String × FieldVal)) (k : String) (v : FieldVal)
    (ha : l.any (fun kv => kv.1 == k) = true) :
    (assocSet l k v).map Prod.fst = l.map Prod.fst := by
  unfold assocSet
  rw [if_pos ha, List.map_map]
  refine List.map_congr_left (fun kv _ => ?_)
  by_cases hk : kv.1 = k
  · simp [hk]
  · simp [hk]

theorem add_wireguard_peer_model_eq (orig : List (String × FieldVal)) (s : SettingsDoc)
    (priv pub name : String) (ka : Nat)
    (hset : assocLookup orig "settings" = some (.settingsDoc s)) :
    add_wireguard_peer_model orig priv pub name ka =
      add_wireguard_peer_body orig s priv pub name ka := by
  unfold add_wireguard_peer_model
  rw [hset]

theorem add_wireguard_peer_body_ok (orig : List (String × FieldVal)) (s : SettingsDoc)
    (priv pub name : String) (ka : Nat) (ip : String)
    (hpick : pick_new_ip s.peers defaultPool = .ok ip) :
    add_wireguard_peer_body orig s priv pub name ka =
      .ok (assocSet (orig.filter keptField) "settings"
            (.settingsDoc { s with peers := s.peers ++ [newPeerOf priv pub ip ka name] }),
          newPeerOf priv pub ip ka name) := by
  unfold add_wireguard_peer_body
  rw [hpick]

/-- C2: on an inbound whose (parsable) peer addresses leave some host of the
default pool free, `add_wireguard_peer` appends exactly one new peer, its
sole `allowedIPs` address is distinct from every address of every
pre-existing peer, and pairwise address-disjointness of the peer list is
preserved. -/
theorem add_wireguard_peer_unique (orig : List (String × FieldVal)) (s : SettingsDoc)
    (priv pub name : String) (ka : Nat) (used : List Nat)
    (hset : assocLookup orig "settings" = some (.settingsDoc s))
    (hu : parseAll (peerAddrStrings s.peers) = some used)
    (hfree : ∃ h ∈ hostsOf defaultPool, h ∉ used) :
    ∃ h payload, h ∈ hostsOf defaultPool ∧ h ∉ used ∧
      add_wireguard_peer_model orig priv pub name ka =
        .ok (payload, newPeerOf priv pub (ipToString h ++ "/32") ka name) ∧
      assocLookup payload "settings" = some (.settingsDoc
        { s with peers := s.peers ++ [newPeerOf priv pub (ipToString h ++ "/32") ka name] }) ∧
      (∀ p ∈ s.peers, ∀ a ∈ parsedAddrs p,
        a ∉ parsedAddrs (newPeerOf priv pub (ipToString h ++ "/32") ka name)) ∧
      (s.peers.Pairwise addrDisjoint →
        (s.peers ++ [newPeerOf priv pub (ipToString h ++ "/32") ka name]).Pairwise
          addrDisjoint) := by
  obtain ⟨h0, h0mem, h0not⟩ := hfree
  cases hf : (hostsOf defaultPool).find? (fun h => !(used.contains h)) with
  | none =>
    have := List.find?_eq_none.1 hf h0 h0mem
    simp [h0not] at this
  | some h =>
    have hmem := List.mem_of_find?_eq_some hf
    have hnot : h ∉ used := by simpa using List.find?_some hf
    have hpick : pick_new_ip s.peers defaultPool = .ok (ipToString h ++ "/32") := by
      rw [pick_new_ip_eq s.peers defaultPool used hu, hf]
    have hres := (add_wireguard_peer_model_eq orig s priv pub name ka hset).trans
      (add_wireguard_peer_body_ok orig s priv pub name ka _ hpick)
    have hlt : h < 4294967296 := mem_hostsOf_defaultPool_lt hmem
    have hround : parseIPv4 (addrPart (ipToString h ++ "/32")) = some h := by
      rw [addrPart_ip32 h]
      exact parseIPv4_ipToString h hlt
    have hdisj : ∀ p ∈ s.peers, ∀ a ∈ parsedAddrs p,
        a ∉ parsedAddrs (newPeerOf priv pub (ipToString h ++ "/32") ka name) := by
      intro p hp a ha hain
      have hpnp : parsedAddrs (newPeerOf priv pub (ipToString h ++ "/32") ka name) =
          [parseIPv4 (addrPart (ipToString h ++ "/32"))] := rfl
      rw [hpnp, hround] at hain
      have ha_eq : a = some h := by simpa using hain
      obtain ⟨str, hstr, heq⟩ := List.mem_map.1 ha
      obtain ⟨v, hv1, hv2⟩ := parseAll_mem hu _ (mem_peerAddrStrings hp hstr)
      rw [← heq, hv1] at ha_eq
      have : v = h := by simpa using ha_eq
      exact hnot (this ▸ hv2)
    refine ⟨h, _, hmem, hnot, hres, assocLookup_assocSet_self _ _ _, hdisj, ?_⟩
    intro hpw
    rw [List.pairwise_append]
    refine ⟨hpw, List.pairwise_singleton _ _, ?_⟩
    intro p hp q hq
    have hq2 : q = newPeerOf priv pub (ipToString h ++ "/32") ka name := by simpa using hq
    subst hq2
    exact hdisj p hp

def w2peer : WGPeer := { allowedIPs := ["10.0.0.1/32"] }

def w2settings : SettingsDoc := { peers := [w2peer] }

def w2orig : List (String × FieldVal) :=
  [("id", .num 5), ("remark", .str "r"), ("settings", .settingsDoc w2settings),
   ("clientStats", .statsList [])]

/-- Concrete instance of C2: one existing peer holding `10.0.0.1`, the new
peer gets a fresh address. -/
theorem add_wireguard_peer_unique_witness :
    ∃ h payload, h ∈ hostsOf defaultPool ∧ h ∉ [167772161] ∧
      add_wireguard_peer_model w2orig "PRIV" "PUB" "alice" 25 =
        .ok (payload, newPeerOf "PRIV" "PUB" (ipToString h ++ "/32") 25 "alice") ∧
      assocLookup payload "settings" = some (.settingsDoc
        { w2settings with peers := w2settings.peers ++
            [newPeerOf "PRIV" "PUB" (ipToString h ++ "/32") 25 "alice"] }) ∧
      (∀ p ∈ w2settings.peers, ∀ a ∈ parsedAddrs p,
        a ∉ parsedAddrs (newPeerOf "PRIV" "PUB" (ipToString h ++ "/32") 25 "alice")) ∧
      (w2settings.peers.Pairwise addrDisjoint →
        (w2settings.peers ++ [newPeerOf "PRIV" "PUB" (ipToString h ++ "/32") 25 "alice"]).Pairwise
          addrDisjoint) :=
  add_wireguard_peer_unique w2orig w2settings "PRIV" "PUB" "alice" 25 [167772161]
    rfl rfl ⟨167772162, by decide, by decide⟩

/-- C5: the update payload posted by `add_wireguard_peer` carries exactly
the fields of the fetched inbound minus `id` and `clientStats`; every field
other than `settings` keeps its original value, `settings` becomes the
re-serialization of the decoded original with the new peer appended. -/
theorem add_wireguard_peer_frame (orig : List (String × FieldVal)) (s : SettingsDoc)
    (priv pub name : String) (ka : Nat) (ip : String)
    (hset : assocLookup orig "settings" = some (.settingsDoc s))
    (hpick : pick_new_ip s.peers defaultPool = .ok ip) :
    ∃ payload,
      add_wireguard_peer_model orig priv pub name ka =
        .ok (payload, newPeerOf priv pub ip ka name) ∧
      payload.map Prod.fst = (orig.filter keptField).map Prod.fst ∧
      assocLookup payload "id" = none ∧
      assocLookup payload "clientStats" = none ∧
      (∀ k, k ≠ "id" → k ≠ "clientStats" → k ≠ "settings" →
        assocLookup payload k = assocLookup orig k) ∧
      assocLookup payload "settings" =
        some (.settingsDoc { s with peers := s.peers ++ [newPeerOf priv pub ip ka name] }) := by
  have hres := (add_wireguard_peer_model_eq orig s priv pub name ka hset).trans
    (add_wireguard_peer_body_ok orig s priv pub name ka ip hpick)
  have hfilt : assocLookup (orig.filter keptField) "settings" = some (.settingsDoc s) := by
    rw [assocLookup_filter orig "settings" (by decide) (by decide)]
    exact hset
  refine ⟨_, hres, ?_, ?_, ?_, ?_, assocLookup_assocSet_self _ _ _⟩
  · exact assocSet_keys_of_present _ _ _ (assocLookup_any hfilt)
  · rw [assocLookup_assocSet_other _ _ _ _ (by decide)]
    exact assocLookup_filter_id _
  · rw [assocLookup_assocSet_other _ _ _ _ (by decide)]
    exact assocLookup_filter_clientStats _
  · intro k hk1 hk2 hk3
    rw [assocLookup_assocSet_other _ _ _ _ hk3]
    exact assocLookup_filter orig k hk1 hk2

def w5settings : SettingsDoc := { peers := [] }

def w5orig : List (String × FieldVal) :=
  [("id", .num 7), ("port", .num 51820), ("settings", .settingsDoc w5settings),
   ("clientStats", .statsList [{ email := some "x" }]), ("enable", .boolean true)]

/-- Concrete instance of C5 on an inbound with `id`, `port`, `settings`,
`clientStats` and `enable` fields. -/
theorem add_wireguard_peer_frame_witness :
    ∃ payload,
      add_wireguard_peer_model w5orig "P1" "P2" "bob" 25 =
        .ok (payload, newPeerOf "P1" "P2" "10.0.0.1/32" 25 "bob") ∧
      payload.map Prod.fst = (w5orig.filter keptField).map Prod.fst ∧
      assocLookup payload "id" = none ∧
      assocLookup payload "clientStats" = none ∧
      (∀ k, k ≠ "id" → k ≠ "clientStats" → k ≠ "settings" →
        assocLookup payload k = assocLookup w5orig k) ∧
      assocLookup payload "settings" =
        some (.settingsDoc { w5settings with peers := w5settings.peers ++
          [newPeerOf "P1" "P2" "10.0.0.1/32" 25 "bob"] }) :=
  add_wireguard_peer_frame w5orig w5settings "P1" "P2" "bob" 25 "10.0.0.1/32" rfl rfl

/-! ## C4: least-loaded inbound selection -/

/-- The decoded `realitySettings` block of the `streamSettings` of a stream
`streamSettings` JSON.  `serverNames`/`shortIds` are `Option` lists because
the code indexes `[0]` into a present list but substitutes `[""]` when the
key is absent; `spiderX` stands for `realitySettings["settings"]["spiderX"]`
with its chained `.get` defaults. -/
structure RealityView where
  publicKey : String := ""
  fingerprint : String := ""
  serverNames : Option (List String) := none
  shortIds : Option (List String) := none
  spiderX : String := ""
  deriving DecidableEq, Repr

/-- The decoded `streamSettings` JSON of an inbound, restricted to the keys
the code reads. -/
structure StreamSettingsView where
  network : Option String := none
  security : Option String := none
  realitySettings : Option RealityView := none
  deriving DecidableEq, Repr

/-- An inbound document as returned by the list/get endpoints of the panel, with
the JSON-string `settings` and `streamSettings` fields carried at their
decoded level. -/
structure Inbound where
  id : Int
  protocol : String
  port : Nat := 0
  listen : String := ""
  clientStats : List Entry := []
  settings : SettingsDoc := {}
  streamSettings : StreamSettingsView := {}
  deriving DecidableEq, Repr

/-- The Python `min(filtered, key=lambda i: len(i.get("clientStats", [])))`:
scan left to right, replace the current best only on a strictly smaller
key, so the first minimum wins. -/
def minByClientStats : Inbound → List Inbound → Inbound
  | best, [] => best
  | best, i :: rest =>
    if i.clientStats.length < best.clientStats.length then minByClientStats i rest
    else minByClientStats best rest

/-- The `Exception(f"No inbounds with protocol ...")` raised by
`get_least_clients_inbound`. -/
inductive SelectErr where
  | noInbounds
  deriving DecidableEq, Repr

/-- `XUIService.get_least_clients_inbound` over a fetched inbound list. -/
def get_least_clients_inbound (inbounds : List Inbound) (proto : String) :
    Except SelectErr Inbound :=
  match inbounds.filter (fun i => i.protocol == proto) with
  | [] => .error .noInbounds
  | f :: fs => .ok (minByClientStats f fs)

theorem minByClientStats_step (best i : Inbound) (rest : List Inbound) :
    minByClientStats best (i :: rest) =
      if i.clientStats.length < best.clientStats.length then minByClientStats i rest
      else minByClientStats best rest := rfl

theorem minByClientStats_spec (best : Inbound) (rest : List Inbound) :
    ∃ pre post, best :: rest = pre ++ minByClientStats best rest :: post ∧
      (∀ x ∈ pre,
        (minByClientStats best rest).clientStats.length < x.clientStats.length) ∧
      (∀ x ∈ best :: rest,
        (minByClientStats best rest).clientStats.length ≤ x.clientStats.length) := by
  induction rest generalizing best with
  | nil =>
    refine ⟨[], [], rfl, by simp, ?_⟩
    intro x hx
    have hxb : x = best := by simpa using hx
    subst hxb
    exact Nat.le_refl _
  | cons i r ih =>
    by_cases hc : i.clientStats.length < best.clientStats.length
    · have hm : minByClientStats best (i :: r) = minByClientStats i r := by
        rw [minByClientStats_step, if_pos hc]
      obtain ⟨pre, post, he, hpre, hall⟩ := ih i
      refine ⟨best :: pre, post, ?_, ?_, ?_⟩
      · rw [hm, List.cons_append, ← he]
      · intro x hx
        rcases List.mem_cons.1 hx with rfl | hx
        · rw [hm]
          exact Nat.lt_of_le_of_lt (hall i (List.mem_cons_self i r)) hc
        · rw [hm]
          exact hpre x hx
      · intro x hx
        rcases List.mem_cons.1 hx with rfl | hx
        · rw [hm]
          exact Nat.le_of_lt (Nat.lt_of_le_of_lt (hall i (List.mem_cons_self i r)) hc)
        · rw [hm]
          exact hall x hx
    · have hm : minByClientStats best (i :: r) = minByClientStats best r := by
        rw [minByClientStats_step, if_neg hc]
      have hbi : best.clientStats.length ≤ i.clientStats.length := Nat.le_of_not_lt hc
      obtain ⟨pre, post, he, hpre, hall⟩ := ih best
      cases pre with
      | nil =>
        rw [List.nil_append] at he
        injection he with hb hr
        refine ⟨[], i :: post, ?_, by simp, ?_⟩
        · rw [hm, List.nil_append, ← hb, hr]
        · intro x hx
          rcases List.mem_cons.1 hx with rfl | hx
          · rw [hm, ← hb]
          · rcases List.mem_cons.1 hx with rfl | hx
            · rw [hm, ← hb]
              exact hbi
            · rw [hm]
              exact hall x (List.mem_cons_of_mem best hx)
      | cons p0 pre2 =>
        rw [List.cons_append] at he
        injection he with hb hr
        have hmb : (minByClientStats best r).clientStats.length <
            best.clientStats.length := by
          have := hpre p0 (List.mem_cons_self p0 pre2)
          rw [← hb] at this
          exact this
        refine ⟨best :: i :: pre2, post, ?_, ?_, ?_⟩
        · rw [hm]
          simp only [List.cons_append]
          exact congrArg (List.cons best) (congrArg (List.cons i) hr)
        · intro x hx
          rcases List.mem_cons.1 hx with rfl | hx
          · rw [hm]
            exact hmb
          · rcases List.mem_cons.1 hx with rfl | hx
            · rw [hm]
              exact Nat.lt_of_lt_of_le hmb hbi
            · rw [hm]
              exact hpre x (List.mem_cons_of_mem p0 hx)
        · intro x hx
          rcases List.mem_cons.1 hx with rfl | hx
          · rw [hm]
            exact hall x (List.mem_cons_self _ _)
          · rcases List.mem_cons.1 hx with rfl | hx
            · rw [hm]
              exact Nat.le_trans (Nat.le_of_lt hmb) hbi
            · rw [hm]
              exact hall x (List.mem_cons_of_mem best hx)

/-- C4: `get_least_clients_inbound` filters by exact protocol match, fails
when none matches, and otherwise deterministically returns the first
inbound, in original list order, whose `clientStats` length is minimal;
over the two-inbound example of the specification it returns inbound 2. -/
theorem get_least_clients_inbound_spec (inbounds : List Inbound) (proto : String) :
    (inbounds.filter (fun i => i.protocol == proto) = [] →
      get_least_clients_inbound inbounds proto = .error .noInbounds) ∧
    (∀ f fs, inbounds.filter (fun i => i.protocol == proto) = f :: fs →
      ∃ m pre post, get_least_clients_inbound inbounds proto = .ok m ∧
        m.protocol = proto ∧ m ∈ inbounds ∧
        f :: fs = pre ++ m :: post ∧
        (∀ x ∈ pre, m.clientStats.length < x.clientStats.length) ∧
        (∀ x ∈ f :: fs, m.clientStats.length ≤ x.clientStats.length)) ∧
    (∀ a b : Entry,
      get_least_clients_inbound
        [{ id := 1, protocol := "vless", clientStats := [a, b] },
         { id := 2, protocol := "vless", clientStats := [] }] "vless" =
      .ok { id := 2, protocol := "vless", clientStats := [] }) := by
  refine ⟨?_, ?_, ?_⟩
  · intro h
    unfold get_least_clients_inbound
    rw [h]
  · intro f fs hf
    have hok : get_least_clients_inbound inbounds proto = .ok (minByClientStats f fs) := by
      unfold get_least_clients_inbound
      rw [hf]
    obtain ⟨pre, post, he, hpre, hall⟩ := minByClientStats_spec f fs
    have hmem : minByClientStats f fs ∈ f :: fs := by
      rw [he]
      exact List.mem_append_right _ (List.mem_cons_self _ _)
    have hmem2 : minByClientStats f fs ∈ inbounds.filter (fun i => i.protocol == proto) := by
      rw [hf]
      exact hmem
    refine ⟨minByClientStats f fs, pre, post, hok, ?_, ?_, he, hpre, hall⟩
    · have := List.of_mem_filter hmem2
      simpa using this
    · exact List.mem_of_mem_filter hmem2
  · intro a b
    rfl

def w4a : Entry := { email := some "a" }

def w4b : Entry := { email := some "b" }

/-- Concrete instance of C4: the two-inbound example of the specification, plus
the failure case on an empty inventory. -/
theorem get_least_clients_inbound_spec_witness :
    get_least_clients_inbound
      [{ id := 1, protocol := "vless", clientStats := [w4a, w4b] },
       { id := 2, protocol := "vless", clientStats := [] }] "vless" =
      .ok { id := 2, protocol := "vless", clientStats := [] } ∧
    get_least_clients_inbound [] "vless" = .error .noInbounds :=
  ⟨(get_least_clients_inbound_spec [] "vless").2.2 w4a w4b,
   (get_least_clients_inbound_spec [] "vless").1 rfl⟩

/-! ## C8: client lookup in clientStats -/

/-- `XUIService.find_client`: walk the inbounds, return the
`(inbound_id, client_stats_record)` of the first `clientStats` entry whose
`email` equals the argument, or `None` when the scan is exhausted. -/
def find_client (inbounds : List Inbound) (email : String) : Option (Int × Entry) :=
  match inbounds with
  | [] => none
  | i :: rest =>
    match i.clientStats.find? (fun c => c.email == some email) with
    | some c => some (i.id, c)
    | none => find_client rest email

/-- The lookup in the words of the specification: the first
`(inbound id, record)` pair in inbound-list order whose record has a matching `email`
matches. -/
def find_client_ref (inbounds : List Inbound) (email : String) : Option (Int × Entry) :=
  (inbounds.foldr (fun i acc =>
    (i.clientStats.filter (fun c => c.email == some email)).map (fun c => (i.id, c)) ++ acc)
    []).head?

theorem find?_eq_head_filter (p : Entry → Bool) (l : List Entry) :
    l.find? p = (l.filter p).head? := by
  induction l with
  | nil => rfl
  | cons a t ih =>
    by_cases h : p a
    · rw [List.find?_cons_of_pos _ h, List.filter_cons_of_pos h]
      rfl
    · rw [List.find?_cons_of_neg _ h, List.filter_cons_of_neg (by simpa using h)]
      exact ih

/-- C8 (amended): `find_client` returns the first matching
`(inbound id, record)` pair in inbound-list order, and returns `None` — it
does not raise — when no inbound yields a match. -/
theorem find_client_spec (inbounds : List Inbound) (email : String) :
    find_client inbounds email = find_client_ref inbounds email ∧
    ((∀ i ∈ inbounds, ∀ c ∈ i.clientStats, ¬ c.email = some email) →
      find_client inbounds email = none) := by
  constructor
  · induction inbounds with
    | nil => rfl
    | cons i rest ih =>
      have hstep : find_client (i :: rest) email =
          match i.clientStats.find? (fun c => c.email == some email) with
          | some c => some (i.id, c)
          | none => find_client rest email := rfl
      have hrstep : find_client_ref (i :: rest) email =
          ((i.clientStats.filter (fun c : Entry => c.email == some email)).map
              (fun c : Entry => (i.id, c)) ++
            rest.foldr (fun (j : Inbound) (acc : List (Int × Entry)) =>
              (j.clientStats.filter (fun c : Entry => c.email == some email)).map
                (fun c : Entry => (j.id, c)) ++ acc) []).head? := rfl
      rw [hstep, hrstep, find?_eq_head_filter]
      cases hfl : i.clientStats.filter (fun c => c.email == some email) with
      | nil => exact ih
      | cons c cs => rfl
  · intro hno
    induction inbounds with
    | nil => rfl
    | cons i rest ih =>
      unfold find_client
      have hf : i.clientStats.find? (fun c => c.email == some email) = none := by
        rw [List.find?_eq_none]
        intro c hc
        simpa using hno i (List.mem_cons_self i rest) c hc
      rw [hf]
      exact ih (fun j hj => hno j (List.mem_cons_of_mem i hj))

def w8inb : Inbound :=
  { id := 4, protocol := "vless", clientStats := [{ email := some "alice" }] }

/-- Counterexample to C8 as stated: with no matching entry anywhere the
code does not fail with a not-found error; it returns `None` (as its own
docstring says), here for `bob` against an inbound holding only `alice`. -/
theorem find_client_no_match_counterexample : find_client [w8inb] "bob" = none := by
  decide

/-- Concrete instance of C8: the first-match equation at a matching email,
and the `None` result on an empty inventory. -/
theorem find_client_spec_witness :
    find_client [w8inb] "alice" = find_client_ref [w8inb] "alice" ∧
    find_client [] "bob" = none :=
  ⟨(find_client_spec [w8inb] "alice").1,
   (find_client_spec [] "bob").2 (by decide)⟩

/-! ## C3 and C10: client creation with idempotent fallback -/

/-- A settings entry found by `find_client_in_inbound`: a stream client or
a WireGuard peer, the two dict shapes the Python function can hand back. -/
inductive FoundEntry where
  | client (c : Entry)
  | peer (p : WGPeer)
  deriving DecidableEq, Repr

/-- `entry.get("email") == email or entry.get("name") == email` on a client
record. -/
def entryMatches (email : String) (e : Entry) : Bool :=
  e.email == some email || e.name == some email

/-- The same test on a peer record, whose dict has a `name` key but no
`email` key (so only the `name` comparison can succeed). -/
def peerMatches (email : String) (p : WGPeer) : Bool := p.name == email

/-- `XUIService.find_client_in_inbound`: search `settings.clients` for the
stream protocols, `settings.peers` otherwise; `none` models the raised
`Exception("Client ... not found ...")`. -/
def find_client_in_inbound (inb : Inbound) (email : String) : Option FoundEntry :=
  if inb.protocol = "vless" ∨ inb.protocol = "vmess" then
    (inb.settings.clients.find? (entryMatches email)).map .client
  else
    (inb.settings.peers.find? (peerMatches email)).map .peer

/-- `XUIService.get_client_config_by_email` over a fetched inbound list
(fetching the full inbound is the identity here, the list carries full
documents): scan the inbounds with the given protocol and return the first
matching entry; falling off the loop returns Python `None`. -/
def get_client_config_by_email (email proto : String) (inbounds : List Inbound) :
    Option FoundEntry :=
  match inbounds with
  | [] => none
  | i :: rest =>
    if i.protocol ≠ proto then get_client_config_by_email email proto rest
    else
      match find_client_in_inbound i email with
      | some e => some e
      | none => get_client_config_by_email email proto rest

/-- A decoded panel response with its `success` flag. -/
structure ApiResult where
  success : Bool := true
  msg : String := ""
  deriving DecidableEq, Repr

/-- The outcome of the `addClient` POST: the transport raised, or the panel
responded. -/
inductive CreateOutcome where
  | raises
  | response (r : ApiResult)
  deriving DecidableEq, Repr

/-- The full client dictionary generated by `add_client`. -/
structure StreamClient where
  id : String
  flow : String
  email : String
  limitIp : Nat
  totalGB : Nat
  expiryTime : Nat
  enable : Bool
  tgId : String
  subId : String
  reset : Nat
  deriving DecidableEq, Repr

/-- The client record `add_client` builds from two fresh random tokens. -/
def mkClient (uuid subId email : String) : StreamClient :=
  { id := uuid, flow := "", email := email, limitIp := 0, totalGB := 0,
    expiryTime := 0, enable := true, tgId := "", subId := subId, reset := 0 }

/-- The two shapes `add_client` can return: the `(client, api_response)`
tuple of the success path, or the bare result of the fallback lookup. -/
inductive AddClientReturn where
  | pair (c : StreamClient) (r : ApiResult)
  | fallbackResult (e : Option FoundEntry)
  deriving DecidableEq, Repr

/-- `XUIService.add_client`: build the client and POST it; if the panel
reports success, return the `(client, result)` tuple; on a panel failure or
a raise anywhere in the `try`, return the bare result of
`get_client_config_by_email(email, protocol="vless")`.  The generated
random tokens and the transport outcome are passed as arguments. -/
def add_client (uuid subId email : String) (outcome : CreateOutcome)
    (inbounds : List Inbound) : AddClientReturn :=
  match outcome with
  | .response r =>
    if r.success then .pair (mkClient uuid subId email) r
    else .fallbackResult (get_client_config_by_email email "vless" inbounds)
  | .raises => .fallbackResult (get_client_config_by_email email "vless" inbounds)

theorem get_client_config_none (email : String) (inbounds : List Inbound)
    (hno : ∀ i ∈ inbounds, i.protocol = "vless" →
      ∀ c ∈ i.settings.clients, entryMatches email c = false) :
    get_client_config_by_email email "vless" inbounds = none := by
  revert hno
  induction inbounds with
  | nil => intro _; rfl
  | cons i rest ih =>
    intro hno
    unfold get_client_config_by_email
    by_cases hp : i.protocol = "vless"
    · rw [if_neg (fun hne => hne hp)]
      have hfind : find_client_in_inbound i email = none := by
        unfold find_client_in_inbound
        rw [if_pos (Or.inl hp)]
        have hf : i.settings.clients.find? (entryMatches email) = none :=
          List.find?_eq_none.2 (fun c hc => by
            simp [hno i (List.mem_cons_self i rest) hp c hc])
        rw [hf]
        rfl
      rw [hfind]
      exact ih (fun j hj => hno j (List.mem_cons_of_mem i hj))
    · rw [if_pos hp]
      exact ih (fun j hj => hno j (List.mem_cons_of_mem i hj))

/-- C10: `add_client` returns a `(client, response)` pair on a successful
create, and on any exception in the create path it returns the bare result
of the email lookup — no error is raised; the lookup is `None` exactly when
no vless inbound holds a client matching the email by `email` or `name`. -/
theorem add_client_return_shapes (uuid subId email : String) (r : ApiResult)
    (inbounds : List Inbound) :
    (r.success = true →
      add_client uuid subId email (.response r) inbounds =
        .pair (mkClient uuid subId email) r) ∧
    (r.success = false →
      add_client uuid subId email (.response r) inbounds =
        .fallbackResult (get_client_config_by_email email "vless" inbounds)) ∧
    (add_client uuid subId email .raises inbounds =
      .fallbackResult (get_client_config_by_email email "vless" inbounds)) ∧
    ((∀ i ∈ inbounds, i.protocol = "vless" →
        ∀ c ∈ i.settings.clients, entryMatches email c = false) →
      get_client_config_by_email email "vless" inbounds = none) := by
  have hstep : add_client uuid subId email (.response r) inbounds =
      if r.success then .pair (mkClient uuid subId email) r
      else .fallbackResult (get_client_config_by_email email "vless" inbounds) := rfl
  refine ⟨?_, ?_, rfl, get_client_config_none email inbounds⟩
  · intro hs
    rw [hstep, if_pos hs]
  · intro hs
    rw [hstep, if_neg (by simp [hs])]

def w10inb : Inbound :=
  { id := 9, protocol := "vless",
    settings := { clients := [{ id := "cid", email := some "alice" }] } }

/-- Concrete instance of C10: a failed create for `bob` falls back to the
lookup, which returns `None` because only `alice` exists. -/
theorem add_client_return_shapes_witness :
    add_client "u" "s" "bob" (.response { success := false }) [w10inb] =
      .fallbackResult (get_client_config_by_email "bob" "vless" [w10inb]) ∧
    get_client_config_by_email "bob" "vless" [w10inb] = none :=
  ⟨(add_client_return_shapes "u" "s" "bob" { success := false } [w10inb]).2.1 rfl,
   (add_client_return_shapes "u" "s" "bob" { success := false } [w10inb]).2.2.2 (by decide)⟩

/-- C3, evaluated at the failing input: the create call raises and no
inbound holds a matching client (empty inventory) — the code returns the
bare Python `None` (not a tuple, and without raising the `NotFoundError`
the specification prescribes). -/
theorem add_client_both_fail_returns_none :
    add_client "u1" "s1" "bob" .raises [] = .fallbackResult none := rfl

/-! ## C6: WireGuard config rendering -/

/-- The data `format_wg_config` reads from its argument dict: the `peer`
record, the `port` of the updated inbound, its optional `listen` and decoded
`settings` (from `result.obj`), and the optional `service_host` key. -/
structure WGConfigData where
  peer : WGPeer
  inboundPort : Nat
  inboundListen : String := ""
  inboundSettings : SettingsDoc := {}
  service_host : Option String := none
  deriving DecidableEq, Repr

/-- The optional MTU line: appended when `settings.get("mtu")` is truthy,
i.e. present and nonzero. -/
def mtuLines (mtu : Option Nat) : List String :=
  match mtu with
  | some m => if m = 0 then [] else ["MTU = " ++ Nat.repr m]
  | none => []

/-- `Endpoint`: the supplied `service_host` when the key is present, else
the `listen` value of the inbound (defaulted to the empty string). -/
def endpointOf (d : WGConfigData) : String :=
  match d.service_host with
  | some h => h ++ ":" ++ Nat.repr d.inboundPort
  | none => d.inboundListen ++ ":" ++ Nat.repr d.inboundPort

/-- The lines `XUIService.format_wg_config` joins with newlines; `none`
models the `IndexError` on an empty `allowedIPs`. -/
def wg_config_lines (d : WGConfigData) (dns : String) : Option (List String) :=
  match d.peer.allowedIPs with
  | [] => none
  | addr :: _ =>
    some ((["[Interface]",
            "PrivateKey = " ++ d.peer.privateKey,
            "Address = " ++ addr,
            "DNS = " ++ dns] ++ mtuLines d.inboundSettings.mtu) ++
          ["",
           "[Peer]",
           "PublicKey = " ++ d.peer.publicKey,
           "AllowedIPs = 0.0.0.0/0, ::/0",
           "Endpoint = " ++ endpointOf d,
           "PersistentKeepalive = " ++ Nat.repr (d.peer.keepAlive.getD 0)])

/-- `XUIService.format_wg_config`: the joined config text. -/
def format_wg_config (d : WGConfigData) (dns : String) : Option String :=
  (wg_config_lines d dns).map (String.intercalate "\n")

theorem append_data (a b : String) : (a ++ b).data = a.data ++ b.data := rfl

theorem append_ne_lit {a b : String} (s : String) {ca cb : Char} {la lb : List Char}
    (ha : a.data = ca :: la) (hb : b.data = cb :: lb) (hc : ca ≠ cb) : a ++ s ≠ b := by
  intro he
  have hd := congrArg String.data he
  rw [append_data, ha, hb, List.cons_append] at hd
  injection hd with h1 _
  exact hc h1

theorem append_ne_append {a b : String} (s t : String) {ca cb : Char} {la lb : List Char}
    (ha : a.data = ca :: la) (hb : b.data = cb :: lb) (hc : ca ≠ cb) : a ++ s ≠ b ++ t := by
  intro he
  have hd := congrArg String.data he
  rw [append_data, append_data, ha, hb, List.cons_append, List.cons_append] at hd
  injection hd with h1 _
  exact hc h1

theorem append_ne_empty {a : String} (s : String) {ca : Char} {la : List Char}
    (ha : a.data = ca :: la) : a ++ s ≠ "" := by
  intro he
  have hd := congrArg String.data he
  rw [append_data, ha, List.cons_append] at hd
  exact absurd hd (by simp)

set_option maxHeartbeats 1000000 in
/-- C6 (amended): for every peer with at least one `allowedIPs` entry,
`format_wg_config` renders exactly one `[Interface]` section (private key,
first allowed address, the `dns` argument, and an MTU line exactly when the
decoded settings hold a truthy — present and nonzero — `mtu`) followed by
exactly one `[Peer]` section (the public key of the peer,
`AllowedIPs = 0.0.0.0/0, ::/0`, the endpoint from `service_host` or the
listen address of the inbound, and the keepalive of the peer). -/
theorem format_wg_config_spec (d : WGConfigData) (dns addr : String) (rest : List String)
    (haddr : d.peer.allowedIPs = addr :: rest) :
    ∃ L, wg_config_lines d dns = some L ∧
      format_wg_config d dns = some (String.intercalate "\n" L) ∧
      L = (["[Interface]",
            "PrivateKey = " ++ d.peer.privateKey,
            "Address = " ++ addr,
            "DNS = " ++ dns] ++ mtuLines d.inboundSettings.mtu) ++
          ["", "[Peer]",
           "PublicKey = " ++ d.peer.publicKey,
           "AllowedIPs = 0.0.0.0/0, ::/0",
           "Endpoint = " ++ endpointOf d,
           "PersistentKeepalive = " ++ Nat.repr (d.peer.keepAlive.getD 0)] ∧
      L.count "[Interface]" = 1 ∧ L.count "[Peer]" = 1 ∧
      (∀ m, d.inboundSettings.mtu = some m → m ≠ 0 → ("MTU = " ++ Nat.repr m) ∈ L) ∧
      ((d.inboundSettings.mtu = none ∨ d.inboundSettings.mtu = some 0) →
        ∀ t, ("MTU = " ++ t) ∉ L) := by
  have hL : wg_config_lines d dns =
      some ((["[Interface]",
              "PrivateKey = " ++ d.peer.privateKey,
              "Address = " ++ addr,
              "DNS = " ++ dns] ++ mtuLines d.inboundSettings.mtu) ++
            ["", "[Peer]",
             "PublicKey = " ++ d.peer.publicKey,
             "AllowedIPs = 0.0.0.0/0, ::/0",
             "Endpoint = " ++ endpointOf d,
             "PersistentKeepalive = " ++ Nat.repr (d.peer.keepAlive.getD 0)]) := by
    unfold wg_config_lines
    rw [haddr]
  refine ⟨_, hL, ?_, rfl, ?_, ?_, ?_, ?_⟩
  · unfold format_wg_config
    rw [hL]
    rfl
  · have i1 : ∀ s : String, ¬("[Interface]" = "PrivateKey = " ++ s) :=
      fun s h => append_ne_lit s rfl rfl (by decide) h.symm
    have i2 : ∀ s : String, ¬("[Interface]" = "Address = " ++ s) :=
      fun s h => append_ne_lit s rfl rfl (by decide) h.symm
    have i3 : ∀ s : String, ¬("[Interface]" = "DNS = " ++ s) :=
      fun s h => append_ne_lit s rfl rfl (by decide) h.symm
    have i4 : ∀ s : String, ¬("[Interface]" = "MTU = " ++ s) :=
      fun s h => append_ne_lit s rfl rfl (by decide) h.symm
    have i5 : ∀ s : String, ¬("[Interface]" = "PublicKey = " ++ s) :=
      fun s h => append_ne_lit s rfl rfl (by decide) h.symm
    have i6 : ∀ s : String, ¬("[Interface]" = "Endpoint = " ++ s) :=
      fun s h => append_ne_lit s rfl rfl (by decide) h.symm
    have i7 : ∀ s : String, ¬("[Interface]" = "PersistentKeepalive = " ++ s) :=
      fun s h => append_ne_lit s rfl rfl (by decide) h.symm
    cases hmtu : d.inboundSettings.mtu with
    | none =>
      simp [mtuLines, List.count_append, List.count_cons, i1, i2, i3, i5, i6, i7]
    | some m =>
      by_cases hm : m = 0
      · simp [mtuLines, hm, List.count_append, List.count_cons, i1, i2, i3, i5, i6, i7]
      · simp [mtuLines, hm, List.count_append, List.count_cons, i1, i2, i3, i4, i5, i6, i7]
  · have p1 : ∀ s : String, ¬("[Peer]" = "PrivateKey = " ++ s) :=
      fun s h => append_ne_lit s rfl rfl (by decide) h.symm
    have p2 : ∀ s : String, ¬("[Peer]" = "Address = " ++ s) :=
      fun s h => append_ne_lit s rfl rfl (by decide) h.symm
    have p3 : ∀ s : String, ¬("[Peer]" = "DNS = " ++ s) :=
      fun s h => append_ne_lit s rfl rfl (by decide) h.symm
    have p4 : ∀ s : String, ¬("[Peer]" = "MTU = " ++ s) :=
      fun s h => append_ne_lit s rfl rfl (by decide) h.symm
    have p5 : ∀ s : String, ¬("[Peer]" = "PublicKey = " ++ s) :=
      fun s h => append_ne_lit s rfl rfl (by decide) h.symm
    have p6 : ∀ s : String, ¬("[Peer]" = "Endpoint = " ++ s) :=
      fun s h => append_ne_lit s rfl rfl (by decide) h.symm
    have p7 : ∀ s : String, ¬("[Peer]" = "PersistentKeepalive = " ++ s) :=
      fun s h => append_ne_lit s rfl rfl (by decide) h.symm
    cases hmtu : d.inboundSettings.mtu with
    | none =>
      simp [mtuLines, List.count_append, List.count_cons, p1, p2, p3, p5, p6, p7]
    | some m =>
      by_cases hm : m = 0
      · simp [mtuLines, hm, List.count_append, List.count_cons, p1, p2, p3, p5, p6, p7]
      · simp [mtuLines, hm, List.count_append, List.count_cons, p1, p2, p3, p4, p5, p6, p7]
  · intro m hm hm0
    rw [hm]
    simp [mtuLines, hm0]
  · intro hfalsy t
    have hm0 : mtuLines d.inboundSettings.mtu = [] := by
      rcases hfalsy with h | h <;> simp [mtuLines, h]
    rw [hm0]
    have e1 : ("MTU = " ++ t) ≠ "[Interface]" := append_ne_lit t rfl rfl (by decide)
    have e2 : ∀ s : String, ("MTU = " ++ t) ≠ "PrivateKey = " ++ s :=
      fun s => append_ne_append t s rfl rfl (by decide)
    have e3 : ∀ s : String, ("MTU = " ++ t) ≠ "Address = " ++ s :=
      fun s => append_ne_append t s rfl rfl (by decide)
    have e4 : ∀ s : String, ("MTU = " ++ t) ≠ "DNS = " ++ s :=
      fun s => append_ne_append t s rfl rfl (by decide)
    have e5 : ("MTU = " ++ t) ≠ "" := append_ne_empty t rfl
    have e6 : ("MTU = " ++ t) ≠ "[Peer]" := append_ne_lit t rfl rfl (by decide)
    have e7 : ∀ s : String, ("MTU = " ++ t) ≠ "PublicKey = " ++ s :=
      fun s => append_ne_append t s rfl rfl (by decide)
    have e8 : ("MTU = " ++ t) ≠ "AllowedIPs = 0.0.0.0/0, ::/0" :=
      append_ne_lit t rfl rfl (by decide)
    have e9 : ∀ s : String, ("MTU = " ++ t) ≠ "Endpoint = " ++ s :=
      fun s => append_ne_append t s rfl rfl (by decide)
    have e10 : ∀ s : String, ("MTU = " ++ t) ≠ "PersistentKeepalive = " ++ s :=
      fun s => append_ne_append t s rfl rfl (by decide)
    simp [List.mem_append, List.mem_cons, e1, e2, e3, e4, e5, e6, e7, e8, e9, e10]

def w6data : WGConfigData :=
  { peer :=
      { privateKey := "PK", publicKey := "PB", allowedIPs := ["10.0.0.5/32"],
        keepAlive := some 25, name := "n" },
    inboundPort := 51820, inboundListen := "9.9.9.9",
    inboundSettings := { mtu := some 1420 } }

/-- Concrete instance of C6 (the round-trip example of the specification):
address `10.0.0.5/32`, keepalive `25`, MTU `1420`. -/
theorem format_wg_config_spec_witness :
    ∃ L, wg_config_lines w6data "1.1.1.1, 1.0.0.1" = some L ∧
      format_wg_config w6data "1.1.1.1, 1.0.0.1" = some (String.intercalate "\n" L) ∧
      L = (["[Interface]",
            "PrivateKey = " ++ w6data.peer.privateKey,
            "Address = " ++ "10.0.0.5/32",
            "DNS = " ++ "1.1.1.1, 1.0.0.1"] ++ mtuLines w6data.inboundSettings.mtu) ++
          ["", "[Peer]",
           "PublicKey = " ++ w6data.peer.publicKey,
           "AllowedIPs = 0.0.0.0/0, ::/0",
           "Endpoint = " ++ endpointOf w6data,
           "PersistentKeepalive = " ++ Nat.repr (w6data.peer.keepAlive.getD 0)] ∧
      L.count "[Interface]" = 1 ∧ L.count "[Peer]" = 1 ∧
      (∀ m, w6data.inboundSettings.mtu = some m → m ≠ 0 → ("MTU = " ++ Nat.repr m) ∈ L) ∧
      ((w6data.inboundSettings.mtu = none ∨ w6data.inboundSettings.mtu = some 0) →
        ∀ t, ("MTU = " ++ t) ∉ L) :=
  format_wg_config_spec w6data "1.1.1.1, 1.0.0.1" "10.0.0.5/32" [] rfl

def w6data0 : WGConfigData :=
  { peer :=
      { privateKey := "PK", publicKey := "PB", allowedIPs := ["10.0.0.5/32"],
        keepAlive := some 25, name := "n" },
    inboundPort := 51820, inboundListen := "9.9.9.9",
    inboundSettings := { mtu := some 0 } }

/-- Counterexample to C6 as stated: the decoded settings contain an `mtu`
(value `0`), yet no MTU line is rendered, because the code tests the value
for Python truthiness, not for presence. -/
theorem format_wg_config_mtu_zero_counterexample :
    w6data0.inboundSettings.mtu = some 0 ∧
    wg_config_lines w6data0 "1.1.1.1, 1.0.0.1" =
      some ["[Interface]", "PrivateKey = PK", "Address = 10.0.0.5/32",
        "DNS = 1.1.1.1, 1.0.0.1", "", "[Peer]", "PublicKey = PB",
        "AllowedIPs = 0.0.0.0/0, ::/0", "Endpoint = 9.9.9.9:51820",
        "PersistentKeepalive = 25"] ∧
    (∀ t, ("MTU = " ++ t) ∉
      ["[Interface]", "PrivateKey = PK", "Address = 10.0.0.5/32",
       "DNS = 1.1.1.1, 1.0.0.1", "", "[Peer]", "PublicKey = PB",
       "AllowedIPs = 0.0.0.0/0, ::/0", "Endpoint = 9.9.9.9:51820",
       "PersistentKeepalive = 25"]) := by
  refine ⟨rfl, rfl, ?_⟩
  intro t
  have e1 : ("MTU = " ++ t) ≠ "[Interface]" := append_ne_lit t rfl rfl (by decide)
  have e2 : ("MTU = " ++ t) ≠ "PrivateKey = PK" := append_ne_lit t rfl rfl (by decide)
  have e3 : ("MTU = " ++ t) ≠ "Address = 10.0.0.5/32" := append_ne_lit t rfl rfl (by decide)
  have e4 : ("MTU = " ++ t) ≠ "DNS = 1.1.1.1, 1.0.0.1" := append_ne_lit t rfl rfl (by decide)
  have e5 : ("MTU = " ++ t) ≠ "" := append_ne_empty t rfl
  have e6 : ("MTU = " ++ t) ≠ "[Peer]" := append_ne_lit t rfl rfl (by decide)
  have e7 : ("MTU = " ++ t) ≠ "PublicKey = PB" := append_ne_lit t rfl rfl (by decide)
  have e8 : ("MTU = " ++ t) ≠ "AllowedIPs = 0.0.0.0/0, ::/0" :=
    append_ne_lit t rfl rfl (by decide)
  have e9 : ("MTU = " ++ t) ≠ "Endpoint = 9.9.9.9:51820" :=
    append_ne_lit t rfl rfl (by decide)
  have e10 : ("MTU = " ++ t) ≠ "PersistentKeepalive = 25" :=
    append_ne_lit t rfl rfl (by decide)
  simp [List.mem_cons, e1, e2, e3, e4, e5, e6, e7, e8, e9, e10]

/-! ## C7: VLESS URI rendering -/

/-- Uppercase hexadecimal digit. -/
def hexDigitChar (n : Nat) : Char :=
  if n < 10 then Char.ofNat (48 + n) else Char.ofNat (55 + n)

/-- The characters `urllib.parse.quote` passes through with its default
`safe="/"`: the unreserved ASCII characters plus the slash. -/
def quoteSafeChar (c : Char) : Bool :=
  ('A' ≤ c && c ≤ 'Z') || ('a' ≤ c && c ≤ 'z') || ('0' ≤ c && c ≤ '9') ||
    c == '_' || c == '.' || c == '-' || c == '~' || c == '/'

/-- `urllib.parse.quote` with its defaults, restricted to single-byte
(ASCII) characters: safe characters pass through, everything else becomes
an uppercase percent escape. -/
def pythonQuote (s : String) : String :=
  String.mk (s.data.foldr (fun c acc =>
    (if quoteSafeChar c then [c]
     else ['%', hexDigitChar (c.toNat / 16 % 16), hexDigitChar (c.toNat % 16)]) ++ acc) [])

/-- `XUIService.format_vless_url` over the decoded `streamSettings`: build
`vless://id@host:port?type&security&pbk&fp&sni&sid&spx#email` with the
query keys in the insertion order of the code; `none` models the `IndexError`
raised when `serverNames`/`shortIds` is present but empty. -/
def format_vless_url (c : StreamClient) (inb : Inbound) (host : String) (port : Nat) :
    Option String :=
  let stream := inb.streamSettings
  let network := stream.network.getD "tcp"
  let security := stream.security.getD "none"
  let reality := stream.realitySettings.getD {}
  let sniOpt : Option String :=
    match reality.serverNames with
    | none => some ""
    | some l => l.head?
  let sidOpt : Option String :=
    match reality.shortIds with
    | none => some ""
    | some l => l.head?
  match sniOpt, sidOpt with
  | some sni, some sid =>
    some ("vless://" ++ c.id ++ "@" ++ host ++ ":" ++ Nat.repr port ++
      "?type=" ++ network ++ "&security=" ++ security ++ "&pbk=" ++ reality.publicKey ++
      "&fp=" ++ reality.fingerprint ++ "&sni=" ++ sni ++ "&sid=" ++ sid ++
      "&spx=" ++ pythonQuote reality.spiderX ++ "#" ++ c.email)
  | _, _ => none

def w7client : StreamClient := mkClient "uuid-1" "sub" "alice"

def w7inbound : Inbound :=
  { id := 1, protocol := "vless", port := 443,
    streamSettings :=
      { network := some "tcp", security := some "reality",
        realitySettings := some
          { publicKey := "PBK", fingerprint := "chrome",
            serverNames := some ["example.com"], shortIds := some ["ab"],
            spiderX := "/x y" } } }

/-- C7 (amended): at the concrete inbound and client of the specification the
code produces the URI with `spx=/x%20y` — `urllib.parse.quote` keeps `/`
unescaped by default, so only the space of the spider path is
percent-encoded. -/
theorem format_vless_url_concrete :
    format_vless_url w7client w7inbound "HOST" 443 =
      some "vless://uuid-1@HOST:443?type=tcp&security=reality&pbk=PBK&fp=chrome&sni=example.com&sid=ab&spx=/x%20y#alice" := by
  decide

/-- Counterexample to C7 as stated: the claimed URI, whose `spx` value has
the slash percent-encoded as `%2F`, is not what the code returns. -/
theorem format_vless_url_spx_counterexample :
    format_vless_url w7client w7inbound "HOST" 443 ≠
      some "vless://uuid-1@HOST:443?type=tcp&security=reality&pbk=PBK&fp=chrome&sni=example.com&sid=ab&spx=%2Fx%20y#alice" := by
  decide

end VPNTG
